import Mathlib

/-!
Verification development for the browser-fs/dom repository.

Two components are embedded from the source:
* `src/backends/FileSystemAccess.ts` — a handle-tree path resolver with a
  path-to-handle cache (`getHandle`) and the filesystem operations built on
  it (`stat`, `readdir`, `mkdir`, `rename`).
* `src/backends/Worker.ts` — the remote filesystem bridge (`WorkerFS`): the
  correlation-id allocator (`_rpc`) and the response message handler
  installed in the constructor.

JavaScript `Map` objects are embedded as association lists with the exact
`get`/`set`/`delete` behavior; promises and `async`/`await` are embedded by
explicit state passing, with one detached-promise subtlety of `getHandle`
modelled by `walkRest` (see its doc comment).  The browser's
File System Access API (an external collaborator, spec section 6) is
modelled by `getDirectoryHandle`/`getFileHandle`/`treeGet` over an explicit
entry tree.
-/

namespace BrowserFSDom

/-! ## Generic association-list model of a JavaScript `Map` -/

/-- JS `Map.get`: value of the entry with the given key, if present. -/
def assocGet {κ α : Type} [DecidableEq κ] : List (κ × α) → κ → Option α
  | [], _ => none
  | (k, v) :: rest, j => if k = j then some v else assocGet rest j

/-- JS `Map.set`: replace the value in place when the key is present,
otherwise append the new entry at the end (insertion order preserved). -/
def assocSet {κ α : Type} [DecidableEq κ] : List (κ × α) → κ → α → List (κ × α)
  | [], k, v => [(k, v)]
  | (k', v') :: rest, k, v =>
    if k' = k then (k, v) :: rest else (k', v') :: assocSet rest k v

/-- JS `Map.delete`: remove the entry with the given key (keys are unique
in a JS `Map`, so removing the first match is exact). -/
def assocErase {κ α : Type} [DecidableEq κ] : List (κ × α) → κ → List (κ × α)
  | [], _ => []
  | (k', v') :: rest, k => if k' = k then rest else (k', v') :: assocErase rest k

/-! ## Path helpers (the node `path` functions the source imports) -/

/-- Split a character list at every `'/'`, like JS `String.prototype.split('/')`
(keeps empty segments, e.g. `"/a".split('/') = ["", "a"]`). -/
def splitChars : List Char → List (List Char)
  | [] => [[]]
  | c :: rest =>
    if c = '/' then [] :: splitChars rest
    else
      match splitChars rest with
      | [] => [[c]]
      | g :: gs => (c :: g) :: gs

/-- JS `path.split('/')` on a string. -/
def splitSlash (p : String) : List String := (splitChars p.data).map fun l => ⟨l⟩

/-- Rejoin path segments with `'/'`. -/
def joinParts : List String → String
  | [] => ""
  | [x] => x
  | x :: rest => x ++ ("/") ++ joinParts rest

/-- node `path.join(a, b)` for the rooted, already-normalized paths this
backend passes it: append with a single separator. -/
def pjoin (a b : String) : String :=
  if a.data.getLast? = some '/' then a ++ b else a ++ ("/") ++ b

/-- node `path.basename`: the last `'/'`-separated segment. -/
def basename (p : String) : String := (splitSlash p).getLastD ("")

/-- node `path.dirname`: everything before the last separator; `"/"` when the
remaining prefix is the root.  (The `[]` arm is unreachable: `splitSlash`
always yields a nonempty list.) -/
def dirname (p : String) : String :=
  match (splitSlash p).dropLast with
  | [] => ("/")
  | [("")] => ("/")
  | parts => joinParts parts

/-- JS `String.prototype.includes` with a single-character needle. -/
def strIncludes (f : String) (c : Char) : Bool := f.data.any fun x => x = c

/-! ## Errors of the FileSystemAccess backend -/

/-- Error codes of the host framework's `ApiError` used by this backend. -/
inductive ErrorCode where
  | ENOENT
  | EINVAL
  | EEXIST
  | ENOTDIR
deriving DecidableEq

/-- Errors that can cross the backend's `try`/`catch` boundaries:
* `notFound` — a DOMException named `NotFoundError`;
* `typeMismatch` — a DOMException named `TypeMismatchError`;
* `nameNotAllowed` — the `TypeError` with message `'Name is not allowed.'`
  the API throws for an invalid (e.g. empty) child name;
* `jsTypeError` — any other JS `TypeError` (such as calling a method on
  `undefined`);
* `api code path` — the host framework's `ApiError` carrying an error code
  and the offending path. -/
inductive JSError where
  | notFound
  | typeMismatch
  | nameNotAllowed
  | jsTypeError
  | api (code : ErrorCode) (path : String)
deriving DecidableEq

/-- `handleError` from FileSystemAccess.ts lines 23-29: a `NotFoundError`
becomes `ApiError.ENOENT(path)`, anything else is rethrown unchanged. -/
def handleError (path : String) (e : JSError) : JSError :=
  match e with
  | JSError.notFound => JSError.api ErrorCode.ENOENT path
  | _ => e

/-! ## The externally owned handle tree (File System Access API) -/

/-- A node of the externally owned hierarchical store: a file (content and
last-modified time) or a directory with named children in insertion order. -/
inductive Entry where
  | file (content : String) (lastModified : Nat)
  | dir (children : List (String × Entry))

/-- Name lookup among a directory's children. -/
def lookupChild : List (String × Entry) → String → Option Entry
  | [], _ => none
  | (n', v) :: rest, n => if n' = n then some v else lookupChild rest n

/-- Replace-or-append a named child (names are unique in a directory). -/
def setChild : List (String × Entry) → String → Entry → List (String × Entry)
  | [], n, v => [(n, v)]
  | (n', v') :: rest, n, v =>
    if n' = n then (n, v) :: rest else (n', v') :: setChild rest n v

/-- Dereference a segment path inside the tree. -/
def treeGet : List String → Entry → Option Entry
  | [], e => some e
  | n :: rest, Entry.dir cs =>
    match lookupChild cs n with
    | some c => treeGet rest c
    | none => none
  | _ :: _, Entry.file _ _ => none

/-- Insert child `n ↦ v` into the directory at segment path `tp` (used by the
`create: true` variants of the handle-granting calls). -/
def treeInsert : List String → Entry → String → Entry → Entry
  | [], Entry.dir cs, n, v => Entry.dir (setChild cs n v)
  | [], e, _, _ => e
  | p :: rest, Entry.dir cs, n, v =>
    match lookupChild cs p with
    | some c => Entry.dir (setChild cs p (treeInsert rest c n v))
    | none => Entry.dir cs
  | _ :: _, e, _, _ => e

/-- Whether a handle was granted as a directory handle or a file handle
(`instanceof FileSystemDirectoryHandle` / `instanceof FileSystemFileHandle`). -/
inductive HandleKind where
  | dir
  | file
deriving DecidableEq

/-- A `FileSystemHandle`: an opaque capability object.  `hid` is the object's
identity (each API acquisition yields a fresh object), `kind` its
`instanceof` class, and `tpath` the tree location it references. -/
structure Handle where
  hid : Nat
  kind : HandleKind
  tpath : List String
deriving DecidableEq

/-- State of one `FileSystemAccessFileSystem` instance together with its
externally owned tree: the tree, the `_handles` path-to-handle cache
(a JS `Map`, seeded with the root at construction), and the allocator for
fresh handle identities. -/
structure FSAState where
  tree : Entry
  handles : List (String × Handle)
  nextHid : Nat

/-- Modelled from the spec: the external handle-granting API's
`getDirectoryHandle(name, { create })` (spec section 6).  An existing
directory child yields a fresh handle object to it; an existing file child
raises `TypeMismatchError`; an absent child is created (as an empty
directory) when `create` is set and otherwise raises `NotFoundError`; an
empty name raises the `'Name is not allowed.'` `TypeError`; invoking it on
a non-directory handle is a JS `TypeError`. -/
def getDirectoryHandle (s : FSAState) (h : Handle) (name : String) (create : Bool) :
    Except JSError (Handle × FSAState) :=
  if name = ("") then Except.error JSError.nameNotAllowed
  else if h.kind ≠ HandleKind.dir then Except.error JSError.jsTypeError
  else
    match treeGet h.tpath s.tree with
    | some (Entry.dir cs) =>
      match lookupChild cs name with
      | some (Entry.dir _) =>
        Except.ok (⟨s.nextHid, HandleKind.dir, h.tpath ++ [name]⟩,
          { s with nextHid := s.nextHid + 1 })
      | some (Entry.file _ _) => Except.error JSError.typeMismatch
      | none =>
        if create then
          Except.ok (⟨s.nextHid, HandleKind.dir, h.tpath ++ [name]⟩,
            { s with nextHid := s.nextHid + 1,
                     tree := treeInsert h.tpath s.tree name (Entry.dir []) })
        else Except.error JSError.notFound
    | _ => Except.error JSError.notFound

/-- Modelled from the spec: the external handle-granting API's
`getFileHandle(name, { create })` (spec section 6), symmetric to
`getDirectoryHandle`: an existing file child yields a fresh handle, an
existing directory child raises `TypeMismatchError`, an absent child is
created empty under `create` and otherwise raises `NotFoundError`. -/
def getFileHandle (s : FSAState) (h : Handle) (name : String) (create : Bool) :
    Except JSError (Handle × FSAState) :=
  if name = ("") then Except.error JSError.nameNotAllowed
  else if h.kind ≠ HandleKind.dir then Except.error JSError.jsTypeError
  else
    match treeGet h.tpath s.tree with
    | some (Entry.dir cs) =>
      match lookupChild cs name with
      | some (Entry.file _ _) =>
        Except.ok (⟨s.nextHid, HandleKind.file, h.tpath ++ [name]⟩,
          { s with nextHid := s.nextHid + 1 })
      | some (Entry.dir _) => Except.error JSError.typeMismatch
      | none =>
        if create then
          Except.ok (⟨s.nextHid, HandleKind.file, h.tpath ++ [name]⟩,
            { s with nextHid := s.nextHid + 1,
                     tree := treeInsert h.tpath s.tree name (Entry.file ("") 0) })
        else Except.error JSError.notFound
    | _ => Except.error JSError.notFound

/-! ## `getHandle` (FileSystemAccess.ts lines 207-246)

The source walks uncached paths with a local async closure
`getHandleParts`.  Two control-flow facts of the source are preserved
exactly:

* the recursive call `getHandleParts(remainingPathParts)` inside
  `continueWalk` is neither `return`ed nor `await`ed, so segments after
  the first are walked on a detached promise whose rejections are
  swallowed — `walkRest` below performs those cache insertions and stops
  silently at the first failure;
* the final line of `getHandle` is `await getHandleParts(pathParts);`
  without `return`, so the walk's value is discarded and `getHandle`
  resolves with `undefined` (`Except.ok none`) for every uncached path. -/

/-- The detached tail of the walk (`getHandleParts(remainingPathParts)`
fired without `return`/`await`): acquire each next segment as a directory
handle, falling back to a file handle on `TypeMismatchError`, caching every
handle under its absolute path (`continueWalk`); any failure is an
unhandled rejection of the dropped promise, i.e. it stops the walk with no
further effect. -/
def walkRest : FSAState → String → List String → FSAState
  | s, _, [] => s
  | s, walkedPath, part :: rest =>
    match assocGet s.handles walkedPath with
    | none => s
    | some handle =>
      match getDirectoryHandle s handle part false with
      | Except.ok (h, s1) =>
        walkRest { s1 with handles := assocSet s1.handles (pjoin walkedPath part) h }
          (pjoin walkedPath part) rest
      | Except.error JSError.typeMismatch =>
        match getFileHandle s handle part false with
        | Except.ok (h, s1) =>
          walkRest { s1 with handles := assocSet s1.handles (pjoin walkedPath part) h }
            (pjoin walkedPath part) rest
        | Except.error _ => s
      | Except.error _ => s

/-- The first walk step (the only one whose errors `getHandle` awaits):
from the cached root handle, try the segment as a directory, fall back to a
file on `TypeMismatchError`, translate failures through `handleError`
(with the `'Name is not allowed.'` special case mapped to `ENOENT`), cache
the acquired handle, and hand the remaining segments to the detached walk.
Whatever `continueWalk` returns is discarded by `getHandle`, hence
`Except.ok none` on every success path. -/
def getHandleFirst (s : FSAState) (part : String) (rest : List String) :
    Except JSError (Option Handle) × FSAState :=
  match assocGet s.handles ("/") with
  | none => (Except.error JSError.jsTypeError, s)
  | some handle =>
    match getDirectoryHandle s handle part false with
    | Except.ok (h, s1) =>
      (Except.ok none,
        walkRest { s1 with handles := assocSet s1.handles (pjoin ("/") part) h }
          (pjoin ("/") part) rest)
    | Except.error JSError.typeMismatch =>
      match getFileHandle s handle part false with
      | Except.ok (h, s1) =>
        (Except.ok none,
          walkRest { s1 with handles := assocSet s1.handles (pjoin ("/") part) h }
            (pjoin ("/") part) rest)
      | Except.error e => (Except.error (handleError (pjoin ("/") part) e), s)
    | Except.error JSError.nameNotAllowed =>
      (Except.error (JSError.api ErrorCode.ENOENT (pjoin ("/") part)), s)
    | Except.error e => (Except.error (handleError (pjoin ("/") part) e), s)

/-- `getHandle(path)` (lines 207-246): a cached path returns its cached
handle immediately; otherwise the path is split on `'/'`, the leading empty
segment dropped, and the walk is started — whose value the source then
discards, resolving with `undefined` (`none`).  (The `[]` arm models
`getHandleParts([])`, where destructuring yields `pathPart = undefined` and
`join` throws a `TypeError`; it is unreachable for rooted paths.) -/
def getHandle (s : FSAState) (path : String) : Except JSError (Option Handle) × FSAState :=
  match assocGet s.handles path with
  | some h => (Except.ok (some h), s)
  | none =>
    match (splitSlash path).drop 1 with
    | [] => (Except.error JSError.jsTypeError, s)
    | part :: rest => getHandleFirst s part rest

/-! ## `stat`, `readdir`, `mkdir` (FileSystemAccess.ts lines 130-201) -/

/-- The host framework's file types used by this backend. -/
inductive FileType where
  | DIRECTORY
  | FILE
deriving DecidableEq

/-- The host framework's stat record as this backend populates it: a file
type, a size, and (for files) the last-modified time taken from the
underlying file object. -/
structure Stats where
  ftype : FileType
  size : Nat
  lastModified : Option Nat
deriving DecidableEq

/-- `stat(path)` (lines 130-142): resolve the handle; `undefined` raises
`ApiError.FileError(EINVAL, path)`; a directory handle reports the fixed
synthetic stats `(DIRECTORY, 4096)`; a file handle reports the underlying
file's byte size and last-modified time (`getFile()` on a removed entry
raises `NotFoundError`). -/
def stat (s : FSAState) (path : String) : Except JSError Stats × FSAState :=
  match getHandle s path with
  | (Except.error e, s1) => (Except.error e, s1)
  | (Except.ok none, s1) => (Except.error (JSError.api ErrorCode.EINVAL path), s1)
  | (Except.ok (some h), s1) =>
    if h.kind = HandleKind.dir then
      (Except.ok ⟨FileType.DIRECTORY, 4096, none⟩, s1)
    else
      match treeGet h.tpath s1.tree with
      | some (Entry.file content lm) =>
        (Except.ok ⟨FileType.FILE, content.length, some lm⟩, s1)
      | _ => (Except.error JSError.notFound, s1)

/-- `readdir(path)` (lines 191-201): resolve the handle; anything that is
not a directory handle (including the `undefined` the walk returns) raises
`ApiError.ENOTDIR(path)`; otherwise enumerate the children's names joined
onto the queried path. -/
def readdir (s : FSAState) (path : String) : Except JSError (List String) × FSAState :=
  match getHandle s path with
  | (Except.error e, s1) => (Except.error e, s1)
  | (Except.ok (some h), s1) =>
    if h.kind = HandleKind.dir then
      match treeGet h.tpath s1.tree with
      | some (Entry.dir cs) => (Except.ok (cs.map fun c => pjoin path c.1), s1)
      | _ => (Except.error JSError.notFound, s1)
    else (Except.error (JSError.api ErrorCode.ENOTDIR path), s1)
  | (Except.ok none, s1) => (Except.error (JSError.api ErrorCode.ENOTDIR path), s1)

/-- The `mkdir` overwrite test on the `mode` argument
(`mode && mode.flag && mode.flag.includes('w') && !mode.flag.includes('x')`),
with the mode value modelled by its optional `flag` string property. -/
def overwriteOf (flag : Option String) : Bool :=
  match flag with
  | some f => strIncludes f 'w' && !(strIncludes f 'x')
  | none => false

/-- `mkdir(p, mode)` (lines 177-189): resolve the target path; a (cached)
existing handle without the overwrite flag raises `ApiError.EEXIST(p)`;
otherwise resolve the parent and, when it is a directory handle, create the
directory child (result discarded); a non-directory parent resolution falls
through silently. -/
def mkdir (s : FSAState) (p : String) (flag : Option String) : Except JSError Unit × FSAState :=
  match getHandle s p with
  | (Except.error e, s1) => (Except.error e, s1)
  | (Except.ok existing, s1) =>
    if existing.isSome && !(overwriteOf flag) then
      (Except.error (JSError.api ErrorCode.EEXIST p), s1)
    else
      match getHandle s1 (dirname p) with
      | (Except.error e, s2) => (Except.error e, s2)
      | (Except.ok (some h), s2) =>
        if h.kind = HandleKind.dir then
          match getDirectoryHandle s2 h (basename p) true with
          | Except.ok (_, s3) => (Except.ok (), s3)
          | Except.error e => (Except.error e, s2)
        else (Except.ok (), s2)
      | (Except.ok none, s2) => (Except.ok (), s2)

/-! ## The directory branch of `rename` (FileSystemAccess.ts lines 80-95)

For a directory source the method issues: `readdir(oldPath)`, then
`mkdir(newPath, 'wx')`, then — when the children list is empty — a single
`unlink(oldPath)`, and otherwise the loop
`for (const file of files) { await this.rename(join(oldPath, file),
join(newPath, file)); await this.unlink(oldPath); }`.  The call sequence
is embedded as data so its shape can be stated. -/

/-- One child-level call issued by `rename`'s directory branch. -/
inductive RenameCall where
  | readdirCall (path : String)
  | mkdirCall (path : String) (mode : String)
  | renameCall (oldPath newPath : String)
  | unlinkCall (path : String)
deriving DecidableEq

/-- The body of the `for (const file of files)` loop (lines 90-93): each
child's recursive rename immediately followed by `unlink(oldPath)` — the
removal targets the source directory itself, inside the loop. -/
def renameChildCalls : String → String → List String → List RenameCall
  | _, _, [] => []
  | oldPath, newPath, file :: rest =>
    RenameCall.renameCall (pjoin oldPath file) (pjoin newPath file) ::
      RenameCall.unlinkCall oldPath :: renameChildCalls oldPath newPath rest

/-- The full call sequence of the directory branch (lines 84-94),
parameterized by the children list `readdir` returned. -/
def renameDirCalls (oldPath newPath : String) (files : List String) : List RenameCall :=
  RenameCall.readdirCall oldPath :: RenameCall.mkdirCall newPath ("wx") ::
    (if files.length = 0 then [RenameCall.unlinkCall oldPath]
     else renameChildCalls oldPath newPath files)

/-- Number of `unlink` calls in a call sequence that target a given path. -/
def countUnlinkSource (p : String) : List RenameCall → Nat
  | [] => 0
  | RenameCall.unlinkCall q :: rest => (if q = p then 1 else 0) + countUnlinkSource p rest
  | _ :: rest => countUnlinkSource p rest

/-! ## The remote filesystem bridge (Worker.ts)

`WorkerFS` keeps a monotone counter `_currentID`, a pending-request map
`_requests : Map<number, {resolve, reject}>`, the remote metadata record
and an `_isInitialized` flag.  `_rpc` (lines 155-166) allocates a fresh id,
registers the caller's continuations and posts the envelope; the
constructor's `onmessage` handler (lines 124-143) dispatches incoming
messages. -/

/-- A response value: either an `Error`/`ApiError` instance (rejects the
pending operation) or any other value (resolves it).  The unsolicited
metadata announcement carries its record through the same `value` slot. -/
inductive RPCValue where
  | error (e : String)
  | data (v : String)
deriving DecidableEq

/-- A value arriving on the channel, abstracted by the tests
`isRPCMessage` performs (`typeof arg == 'object' && 'isBFS' in arg &&
!!arg.isBFS`): the value `null` (for which `typeof` answers `'object'`
yet the `in` test throws a `TypeError`), a non-object value, a non-null
object without a truthy `isBFS` marker, or a marked RPC envelope with id,
method tag and value. -/
inductive EventData where
  | nullData
  | notObject
  | objectNoMarker
  | rpc (id : Nat) (method : String) (value : RPCValue)
deriving DecidableEq

/-- `isRPCMessage` (Worker.ts lines 40-42):
`typeof arg == 'object' && 'isBFS' in arg && !!arg.isBFS`.  The check is
fallible: on `null`, `typeof null == 'object'` holds and `'isBFS' in null`
itself throws a `TypeError`, modelled by `Except.error ()`. -/
def isRPCMessage : EventData → Except Unit Bool
  | EventData.nullData => Except.error ()
  | EventData.notObject => Except.ok false
  | EventData.objectNoMarker => Except.ok false
  | EventData.rpc _ _ _ => Except.ok true

/-- What one invocation of the message handler did, beyond its state
change: returned early on a foreign message, stored metadata, resolved or
rejected the pending operation with continuation token `t`, or threw a
`TypeError` (destructuring a failed `Map.get`, or the `'isBFS' in null`
marker test itself). -/
inductive HandlerOutcome where
  | ignored
  | metadataSet
  | resolved (t : Nat) (v : RPCValue)
  | rejected (t : Nat) (v : RPCValue)
  | threwTypeError
deriving DecidableEq

/-- State of one `WorkerFS` instance: `_currentID`, `_requests` (pending
map from correlation id to the caller's `{resolve, reject}` pair, the pair
modelled by an opaque token), `_metadata` (`none` while the field is still
`undefined`) and `_isInitialized`. -/
structure WorkerState where
  currentID : Nat
  requests : List (Nat × Nat)
  metadata : Option RPCValue
  isInitialized : Bool
deriving DecidableEq

/-- The request envelope `postMessage` sends: `{ isBFS: true, id, method, args }`. -/
structure SentEnvelope where
  isBFS : Bool
  id : Nat
  method : String
  args : List String
deriving DecidableEq

/-- `_rpc` (lines 155-166): allocate `id = this._currentID++`, register the
continuation pair under `id`, and post the marked envelope. -/
def rpcSend (s : WorkerState) (t : Nat) (method : String) (args : List String) :
    WorkerState × SentEnvelope :=
  ({ s with
      currentID := s.currentID + 1,
      requests := assocSet s.requests s.currentID t },
    ⟨true, s.currentID, method, args⟩)

/-- The constructor's `onmessage` handler (lines 124-143): return early
unless `isRPCMessage(event.data)` — a guard that itself throws a
`TypeError` on `null` data, before any state is touched; on the
`'metadata'` method store the value and set `_isInitialized`
unconditionally; otherwise destructure `this._requests.get(id)` — a
`TypeError` when the id is unknown — delete the entry, and reject on an
`Error`/`ApiError` value, else resolve. -/
def onmessage (s : WorkerState) (d : EventData) : WorkerState × HandlerOutcome :=
  match d with
  | EventData.nullData => (s, HandlerOutcome.threwTypeError)
  | EventData.notObject => (s, HandlerOutcome.ignored)
  | EventData.objectNoMarker => (s, HandlerOutcome.ignored)
  | EventData.rpc id method value =>
    if method = ("metadata") then
      ({ s with metadata := some value, isInitialized := true }, HandlerOutcome.metadataSet)
    else
      match assocGet s.requests id with
      | none => (s, HandlerOutcome.threwTypeError)
      | some t =>
        match value with
        | RPCValue.error e =>
          ({ s with requests := assocErase s.requests id },
            HandlerOutcome.rejected t (RPCValue.error e))
        | RPCValue.data v =>
          ({ s with requests := assocErase s.requests id },
            HandlerOutcome.resolved t (RPCValue.data v))

/-- The completion the handler performs for a matched non-metadata
response: rejection for an error value, resolution otherwise. -/
def completionOf (t : Nat) (v : RPCValue) : HandlerOutcome :=
  match v with
  | RPCValue.error e => HandlerOutcome.rejected t (RPCValue.error e)
  | RPCValue.data w => HandlerOutcome.resolved t (RPCValue.data w)

/-- An event in the life of one bridge instance: a filesystem method
invoking `_rpc` (with the caller's continuation token), or a message
arriving on the channel. -/
inductive BridgeEvent where
  | send (t : Nat) (method : String) (args : List String)
  | recv (d : EventData)
deriving DecidableEq

/-- The state transition of one bridge event. -/
def stepState (s : WorkerState) : BridgeEvent → WorkerState
  | BridgeEvent.send t m a => (rpcSend s t m a).1
  | BridgeEvent.recv d => (onmessage s d).1

/-- The correlation ids carried by the envelopes sent along a trace. -/
def sentIds : WorkerState → List BridgeEvent → List Nat
  | _, [] => []
  | s, BridgeEvent.send t m a :: tr =>
    (rpcSend s t m a).2.id :: sentIds (rpcSend s t m a).1 tr
  | s, BridgeEvent.recv d :: tr => sentIds (onmessage s d).1 tr

/-- Whether the event removes correlation id `id` from the pending map. -/
def removesB (s : WorkerState) (e : BridgeEvent) (id : Nat) : Bool :=
  (assocGet s.requests id).isSome && (assocGet (stepState s e).requests id).isNone

/-- How many events of the trace remove `id` from the pending map. -/
def removalCount : WorkerState → List BridgeEvent → Nat → Nat
  | _, [], _ => 0
  | s, e :: tr, id =>
    (if removesB s e id then 1 else 0) + removalCount (stepState s e) tr id

/-- The state of a freshly constructed bridge: counter at `0`, no pending
operations, metadata still `undefined`, not initialized. -/
def initState : WorkerState := ⟨0, [], none, false⟩

/-- Invariant of reachable bridge states: pending keys are distinct (a JS
`Map`) and every pending id was allocated below the current counter. -/
def WInv (s : WorkerState) : Prop :=
  (s.requests.map Prod.fst).Nodup ∧ ∀ k ∈ s.requests.map Prod.fst, k < s.currentID

/-! ## Concrete scenario states used by the evaluation theorems -/

/-- The root directory handle seeded into the cache at construction. -/
def rootHandle : Handle := ⟨0, HandleKind.dir, []⟩

/-- The handle the walk acquires for `/a.txt` in the single-file scenario. -/
def aTxtHandle : Handle := ⟨1, HandleKind.file, [("a.txt")]⟩

/-- Handle tree of the spec scenario: a root holding one file `a.txt` with
content `"hi"`. -/
def tree0 : Entry := Entry.dir [(("a.txt"), Entry.file ("hi") 100)]

/-- Freshly constructed resolver over `tree0`: only the root is cached. -/
def state0 : FSAState := ⟨tree0, [(("/"), rootHandle)], 1⟩

/-- `state0` after one resolution of `/a.txt`: the walk cached the file
handle (and consumed one handle identity) even though its value was
discarded. -/
def state1 : FSAState := ⟨tree0, [(("/"), rootHandle), (("/a.txt"), aTxtHandle)], 2⟩

/-- Handle tree with one existing directory `d`. -/
def treeD : Entry := Entry.dir [(("d"), Entry.dir [])]

/-- Fresh resolver over `treeD` (the existing directory is not cached). -/
def stateD : FSAState := ⟨treeD, [(("/"), rootHandle)], 1⟩

/-- Resolver over `treeD` with the existing directory's handle cached. -/
def stateDCached : FSAState :=
  ⟨treeD, [(("/"), rootHandle), (("/d"), ⟨1, HandleKind.dir, [("d")]⟩)], 2⟩

/-- A bridge state with two operations pending (ids 6 and 7, continuation
tokens 106 and 107). -/
def wsPending : WorkerState := ⟨8, [(6, 106), (7, 107)], none, false⟩

/-- A bridge state with nothing pending but already initialized. -/
def wsEmpty : WorkerState := ⟨5, [], some (RPCValue.data ("m")), true⟩

/-- A short concrete trace: two sends, then the response for id 1. -/
def demoTrace : List BridgeEvent :=
  [BridgeEvent.send 100 ("readdir") [("/")],
   BridgeEvent.send 101 ("stat") [("/")],
   BridgeEvent.recv (EventData.rpc 1 ("stat") (RPCValue.data ("s")))]

/-- The bridge state after the first send of `demoTrace`. -/
def demoAfterSend : WorkerState := ⟨1, [(0, 100)], none, false⟩

/-! ## Lemmas about the association-list `Map` model -/

theorem assocGet_set_self {κ α : Type} [DecidableEq κ] (l : List (κ × α)) (k : κ) (v : α) :
    assocGet (assocSet l k v) k = some v := by
  induction l with
  | nil => simp [assocSet, assocGet]
  | cons p rest ih =>
    by_cases h : p.1 = k
    · simp [assocSet, assocGet, h]
    · simp only [assocSet, assocGet]
      rw [if_neg h, assocGet, if_neg h, ih]

theorem assocGet_set_ne {κ α : Type} [DecidableEq κ] (l : List (κ × α)) (k j : κ) (v : α)
    (h : j ≠ k) : assocGet (assocSet l k v) j = assocGet l j := by
  induction l with
  | nil =>
    simp only [assocSet, assocGet]
    rw [if_neg (fun hh => h hh.symm)]
  | cons p rest ih =>
    by_cases hp : p.1 = k
    · simp only [assocSet]
      rw [if_pos hp]
      simp only [assocGet]
      rw [if_neg (fun hh => h hh.symm), if_neg (fun hh : p.1 = j => h (hh ▸ hp))]
    · simp only [assocSet]
      rw [if_neg hp]
      simp only [assocGet]
      by_cases hj : p.1 = j
      · rw [if_pos hj, if_pos hj]
      · rw [if_neg hj, if_neg hj, ih]

theorem assocGet_erase_ne {κ α : Type} [DecidableEq κ] (l : List (κ × α)) (k j : κ)
    (h : j ≠ k) : assocGet (assocErase l k) j = assocGet l j := by
  induction l with
  | nil => rfl
  | cons p rest ih =>
    by_cases hp : p.1 = k
    · simp only [assocErase]
      rw [if_pos hp, assocGet, if_neg (by rw [hp]; exact fun hh => h hh.symm)]
    · simp only [assocErase]
      rw [if_neg hp, assocGet, assocGet]
      by_cases hj : p.1 = j
      · rw [if_pos hj, if_pos hj]
      · rw [if_neg hj, if_neg hj, ih]

theorem assocErase_sublist {κ α : Type} [DecidableEq κ] (l : List (κ × α)) (k : κ) :
    (assocErase l k).Sublist l := by
  induction l with
  | nil => exact List.Sublist.refl _
  | cons p rest ih =>
    simp only [assocErase]
    by_cases hp : p.1 = k
    · rw [if_pos hp]; exact List.sublist_cons_of_sublist p (List.Sublist.refl rest)
    · rw [if_neg hp]; exact List.Sublist.cons₂ p ih

theorem assocGet_none_iff {κ α : Type} [DecidableEq κ] (l : List (κ × α)) (k : κ) :
    assocGet l k = none ↔ k ∉ l.map Prod.fst := by
  induction l with
  | nil => simp [assocGet]
  | cons p rest ih =>
    simp only [assocGet, List.map_cons, List.mem_cons]
    by_cases hp : p.1 = k
    · rw [if_pos hp]; simp [hp]
    · rw [if_neg hp]
      constructor
      · intro hg hmem
        rcases hmem with hmem | hmem
        · exact hp hmem.symm
        · exact (ih.mp hg) hmem
      · intro hmem
        exact ih.mpr fun hk => hmem (Or.inr hk)

theorem mem_keys_of_assocGet {κ α : Type} [DecidableEq κ] (l : List (κ × α)) (k : κ) (v : α)
    (h : assocGet l k = some v) : k ∈ l.map Prod.fst := by
  by_contra hmem
  rw [(assocGet_none_iff l k).mpr hmem] at h
  exact Option.noConfusion h

theorem assocGet_none_erase {κ α : Type} [DecidableEq κ] (l : List (κ × α)) (k j : κ)
    (h : assocGet l j = none) : assocGet (assocErase l k) j = none := by
  rw [assocGet_none_iff] at h ⊢
  intro hmem
  exact h (((assocErase_sublist l k).map Prod.fst).mem hmem)

theorem assocGet_erase_self {κ α : Type} [DecidableEq κ] (l : List (κ × α)) (k : κ)
    (h : (l.map Prod.fst).Nodup) : assocGet (assocErase l k) k = none := by
  induction l with
  | nil => rfl
  | cons p rest ih =>
    simp only [List.map_cons, List.nodup_cons] at h
    simp only [assocErase]
    by_cases hp : p.1 = k
    · rw [if_pos hp, assocGet_none_iff, ← hp]; exact h.1
    · rw [if_neg hp, assocGet, if_neg hp, ih h.2]

theorem keys_assocSet_fresh {κ α : Type} [DecidableEq κ] (l : List (κ × α)) (k : κ) (v : α)
    (h : k ∉ l.map Prod.fst) :
    (assocSet l k v).map Prod.fst = l.map Prod.fst ++ [k] := by
  induction l with
  | nil => rfl
  | cons p rest ih =>
    simp only [List.map_cons, List.mem_cons] at h
    push_neg at h
    simp only [assocSet]
    rw [if_neg (fun hh => h.1 hh.symm)]
    simp only [List.map_cons, List.cons_append]
    rw [ih h.2]

/-! ## Equation lemmas for the message handler -/

theorem onmessage_meta_eq (s : WorkerState) (id : Nat) (v : RPCValue) :
    onmessage s (EventData.rpc id ("metadata") v) =
      ({ s with metadata := some v, isInitialized := true }, HandlerOutcome.metadataSet) := rfl

theorem onmessage_nometa_none (s : WorkerState) (id : Nat) (m : String) (v : RPCValue)
    (hm : ¬ m = ("metadata")) (hp : assocGet s.requests id = none) :
    onmessage s (EventData.rpc id m v) = (s, HandlerOutcome.threwTypeError) := by
  simp only [onmessage]
  rw [if_neg hm, hp]

theorem onmessage_nometa_some (s : WorkerState) (id : Nat) (m : String) (v : RPCValue) (t : Nat)
    (hm : ¬ m = ("metadata")) (hp : assocGet s.requests id = some t) :
    onmessage s (EventData.rpc id m v) =
      ({ s with requests := assocErase s.requests id }, completionOf t v) := by
  simp only [onmessage]
  rw [if_neg hm, hp]
  cases v <;> rfl

theorem onmessage_currentID (s : WorkerState) (d : EventData) :
    (onmessage s d).1.currentID = s.currentID := by
  cases d with
  | nullData => rfl
  | notObject => rfl
  | objectNoMarker => rfl
  | rpc id m v =>
    by_cases hm : m = ("metadata")
    · subst hm; rw [onmessage_meta_eq]
    · cases hp : assocGet s.requests id with
      | none => rw [onmessage_nometa_none s id m v hm hp]
      | some t => rw [onmessage_nometa_some s id m v t hm hp]

theorem onmessage_requests (s : WorkerState) (d : EventData) :
    (onmessage s d).1.requests = s.requests ∨
      ∃ id t, (onmessage s d).1.requests = assocErase s.requests id ∧
        assocGet s.requests id = some t := by
  cases d with
  | nullData => exact Or.inl rfl
  | notObject => exact Or.inl rfl
  | objectNoMarker => exact Or.inl rfl
  | rpc id m v =>
    by_cases hm : m = ("metadata")
    · subst hm; rw [onmessage_meta_eq]; exact Or.inl rfl
    · cases hp : assocGet s.requests id with
      | none => rw [onmessage_nometa_none s id m v hm hp]; exact Or.inl rfl
      | some t =>
        rw [onmessage_nometa_some s id m v t hm hp]
        exact Or.inr ⟨id, t, rfl, hp⟩

/-- C5 counterexample: the claim "every message lacking the protocol
marker is silently ignored: the handler returns without throwing" fails at
the concrete input `null` — a deliverable foreign message that certainly
carries no marker (`isRPCMessage` does not answer `true` for it): the
marker check `'isBFS' in null` itself throws, so the handler's outcome is
the `TypeError`, not the silent return. -/
theorem c5_counterexample :
    isRPCMessage EventData.nullData ≠ Except.ok true ∧
    onmessage wsEmpty EventData.nullData = (wsEmpty, HandlerOutcome.threwTypeError) ∧
    HandlerOutcome.threwTypeError ≠ HandlerOutcome.ignored :=
  ⟨fun hh => Except.noConfusion hh, rfl, by decide⟩

/-- C5 (amended): a non-null message lacking the protocol marker is
silently ignored — the handler returns without throwing and the whole
bridge state (pending operations, metadata, initialized flag) is
unchanged; a null message instead makes the marker check itself throw a
`TypeError` (`typeof null == 'object'`, then `'isBFS' in null` throws),
still changing no state. -/
theorem c5_amended_foreign_handling (s : WorkerState) (d : EventData)
    (h : isRPCMessage d = Except.ok false) :
    onmessage s d = (s, HandlerOutcome.ignored) ∧
    onmessage s EventData.nullData = (s, HandlerOutcome.threwTypeError) := by
  refine ⟨?_, rfl⟩
  cases d with
  | nullData => exact absurd h (by simp [isRPCMessage])
  | notObject => rfl
  | objectNoMarker => rfl
  | rpc id m v => exact absurd h (by simp [isRPCMessage])

theorem c5_witness :
    isRPCMessage EventData.objectNoMarker = Except.ok false ∧
    onmessage wsPending EventData.objectNoMarker = (wsPending, HandlerOutcome.ignored) :=
  ⟨rfl, (c5_amended_foreign_handling wsPending EventData.objectNoMarker rfl).1⟩

/-- C6: every response tagged with the metadata operation completes no
pending operation and removes nothing from the pending map; it
unconditionally overwrites the stored metadata with its value and sets the
initialized flag, every time it is received. -/
theorem c6_metadata_overwrites (s : WorkerState) (id : Nat) (v : RPCValue) :
    onmessage s (EventData.rpc id ("metadata") v) =
      ({ s with metadata := some v, isInitialized := true }, HandlerOutcome.metadataSet) ∧
    (onmessage s (EventData.rpc id ("metadata") v)).1.requests = s.requests :=
  ⟨rfl, rfl⟩

/-- C7: a non-metadata response whose id matches a pending operation
completes exactly that operation — rejecting on an error value, resolving
otherwise — removes exactly that id from the pending map, and leaves every
other pending id untouched, for an arbitrary pending map (hence regardless
of response order). -/
theorem c7_matched_response_completes (s : WorkerState) (id : Nat) (m : String)
    (v : RPCValue) (t : Nat) (hm : ¬ m = ("metadata"))
    (hnd : (s.requests.map Prod.fst).Nodup)
    (hp : assocGet s.requests id = some t) :
    onmessage s (EventData.rpc id m v) =
      ({ s with requests := assocErase s.requests id }, completionOf t v) ∧
    assocGet (assocErase s.requests id) id = none ∧
    (∀ j, j ≠ id → assocGet (assocErase s.requests id) j = assocGet s.requests j) :=
  ⟨onmessage_nometa_some s id m v t hm hp,
   assocGet_erase_self s.requests id hnd,
   fun j hj => assocGet_erase_ne s.requests id j hj⟩

theorem c7_witness :
    (¬ ("readdir") = ("metadata")) ∧
    assocGet wsPending.requests 7 = some 107 ∧
    onmessage wsPending (EventData.rpc 7 ("readdir") (RPCValue.data ("x"))) =
      ({ wsPending with requests := [(6, 106)] },
        HandlerOutcome.resolved 107 (RPCValue.data ("x"))) ∧
    assocGet ([(6, 106)] : List (Nat × Nat)) 6 = some 106 := by
  refine ⟨by decide, rfl, ?_, rfl⟩
  exact (c7_matched_response_completes wsPending 7 ("readdir") (RPCValue.data ("x")) 107
    (by decide) (by decide) rfl).1

/-- C10: a marked response with a non-metadata method whose id has no
pending entry makes the handler throw a `TypeError` (destructuring the
failed `Map.get`), completing nothing and leaving the state unchanged. -/
theorem c10_unmatched_id_throws (s : WorkerState) (id : Nat) (m : String) (v : RPCValue)
    (hm : ¬ m = ("metadata")) (hp : assocGet s.requests id = none) :
    onmessage s (EventData.rpc id m v) = (s, HandlerOutcome.threwTypeError) :=
  onmessage_nometa_none s id m v hm hp

/-! ## Shape of `getHandle` on uncached paths -/

theorem getHandleFirst_fst (s : FSAState) (part : String) (rest : List String) :
    (getHandleFirst s part rest).1 = Except.ok none ∨
      ∃ e, (getHandleFirst s part rest).1 = Except.error e := by
  unfold getHandleFirst
  cases hroot : assocGet s.handles ("/") with
  | none => exact Or.inr ⟨JSError.jsTypeError, rfl⟩
  | some handle =>
    dsimp only
    cases hd : getDirectoryHandle s handle part false with
    | ok pr =>
      obtain ⟨h1, s1⟩ := pr
      exact Or.inl rfl
    | error e =>
      cases e with
      | typeMismatch =>
        dsimp only
        cases hf : getFileHandle s handle part false with
        | ok pr =>
          obtain ⟨h1, s1⟩ := pr
          exact Or.inl rfl
        | error e2 => exact Or.inr ⟨_, rfl⟩
      | nameNotAllowed => exact Or.inr ⟨_, rfl⟩
      | notFound => exact Or.inr ⟨_, rfl⟩
      | jsTypeError => exact Or.inr ⟨_, rfl⟩
      | api code p => exact Or.inr ⟨_, rfl⟩

theorem getHandle_miss (s : FSAState) (p : String) (hc : assocGet s.handles p = none) :
    (getHandle s p).1 = Except.ok none ∨ ∃ e, (getHandle s p).1 = Except.error e := by
  unfold getHandle
  rw [hc]
  cases hsplit : (splitSlash p).drop 1 with
  | nil => exact Or.inr ⟨JSError.jsTypeError, rfl⟩
  | cons part rest => exact getHandleFirst_fst s part rest

/-- C2: whenever `getHandle` resolves a path to an actual handle (rather
than the discarded-walk `undefined`), that resolution was a cache hit: the
state — including the fresh-handle allocator — is untouched, and resolving
the same path again returns the identical cached handle instance with no
new acquisition from the underlying API. -/
theorem c2_second_resolution_identical (s : FSAState) (p : String) (h : Handle)
    (s' : FSAState) (hg : getHandle s p = (Except.ok (some h), s')) :
    s' = s ∧ s'.nextHid = s.nextHid ∧ getHandle s' p = (Except.ok (some h), s') := by
  cases hc : assocGet s.handles p with
  | some h0 =>
    have he : getHandle s p = (Except.ok (some h0), s) := by
      unfold getHandle; rw [hc]
    rw [he, Prod.mk.injEq] at hg
    obtain ⟨h1, h2⟩ := hg
    have h3 : h0 = h := Option.some.inj (Except.ok.inj h1)
    subst h3
    subst h2
    refine ⟨rfl, rfl, ?_⟩
    unfold getHandle
    rw [hc]
  | none =>
    rcases getHandle_miss s p hc with h1 | ⟨e, h1⟩
    · rw [hg] at h1
      simp at h1
    · rw [hg] at h1
      simp at h1

theorem c2_witness :
    getHandle state0 ("/") = (Except.ok (some rootHandle), state0) ∧
    state0.nextHid = state0.nextHid :=
  ⟨(c2_second_resolution_identical state0 ("/") rootHandle state0 rfl).2.2,
   (c2_second_resolution_identical state0 ("/") rootHandle state0 rfl).2.1⟩

/-- C9: for a path absent from the handle cache, `getHandle`'s non-error
result is always `none` (`undefined`) — the missing `return` discards the
walk's value even when every segment resolves — so on that first call
`stat` raises the invalid-argument error and `readdir` raises
not-a-directory; the walk's cache insertions survive in the resulting
state, so a subsequent call for a now-cached path does return its handle. -/
theorem c9_first_resolution_undefined (s : FSAState) (p : String) (r : Option Handle)
    (s' : FSAState) (hc : assocGet s.handles p = none)
    (hg : getHandle s p = (Except.ok r, s')) :
    r = none ∧
    stat s p = (Except.error (JSError.api ErrorCode.EINVAL p), s') ∧
    readdir s p = (Except.error (JSError.api ErrorCode.ENOTDIR p), s') ∧
    (∀ hh : Handle, assocGet s'.handles p = some hh →
      getHandle s' p = (Except.ok (some hh), s')) := by
  have hr : r = none := by
    rcases getHandle_miss s p hc with h1 | ⟨e, h1⟩
    · rw [hg] at h1
      simpa using h1
    · rw [hg] at h1
      simp at h1
  subst hr
  refine ⟨rfl, ?_, ?_, ?_⟩
  · unfold stat
    rw [hg]
  · unfold readdir
    rw [hg]
  · intro hh hcc
    unfold getHandle
    rw [hcc]

theorem c9_witness :
    assocGet state0.handles ("/a.txt") = none ∧
    stat state0 ("/a.txt") = (Except.error (JSError.api ErrorCode.EINVAL ("/a.txt")), state1) ∧
    getHandle state1 ("/a.txt") = (Except.ok (some aTxtHandle), state1) :=
  ⟨rfl,
   (c9_first_resolution_undefined state0 ("/a.txt") none state1 rfl rfl).2.1,
   (c9_first_resolution_undefined state0 ("/a.txt") none state1 rfl rfl).2.2.2
     aTxtHandle rfl⟩

/-- C1: evaluation of the spec scenario (root with a single file `a.txt`
of content `"hi"`, fresh resolver).  The code diverges from the claim on
its first conjunct: `stat('/a.txt')` raises `EINVAL` (the resolver returns
`undefined` for the uncached path) instead of file-type stats of size 2;
`stat('/missing')` does fail not-found and `readdir('/')` does return
`['/a.txt']` as claimed; and once the walk's cache entry exists (second
call), `stat('/a.txt')` returns the claimed file stats with size 2. -/
theorem c1_scenario_eval :
    (stat state0 ("/a.txt")).1 = Except.error (JSError.api ErrorCode.EINVAL ("/a.txt")) ∧
    (stat state0 ("/missing")).1 = Except.error (JSError.api ErrorCode.ENOENT ("/missing")) ∧
    (readdir state0 ("/")).1 = Except.ok [("/a.txt")] ∧
    (stat state1 ("/a.txt")).1 = Except.ok ⟨FileType.FILE, 2, some 100⟩ :=
  ⟨rfl, rfl, rfl, rfl⟩

/-- C3: evaluation of `mkdir` against an existing directory `d`.  With the
target uncached (any fresh resolver), the pre-existence check reads the
`undefined` that `getHandle` returns and `mkdir('/d')` without an
overwrite flag succeeds silently instead of raising `EEXIST`; the `EEXIST`
branch fires only when the existing entry's handle is already cached. -/
theorem c3_mkdir_eval :
    overwriteOf (some ("r")) = false ∧
    (mkdir stateD ("/d") (some ("r"))).1 = Except.ok () ∧
    (mkdir stateDCached ("/d") (some ("r"))).1 =
      Except.error (JSError.api ErrorCode.EEXIST ("/d")) :=
  ⟨rfl, rfl, rfl⟩

/-! ## Lemmas about the rename directory-branch call sequence (claim C8) -/

theorem countUnlinkSource_children (oldPath newPath : String) (l : List String) :
    countUnlinkSource oldPath (renameChildCalls oldPath newPath l) = l.length := by
  induction l with
  | nil => rfl
  | cons f fs ih =>
    show (if oldPath = oldPath then 1 else 0) +
        countUnlinkSource oldPath (renameChildCalls oldPath newPath fs) = fs.length + 1
    rw [if_pos rfl, ih]
    omega

theorem renameChildCalls_get (oldPath newPath : String) :
    ∀ (l : List String) (i : Nat) (c : String), l.get? i = some c →
      (renameChildCalls oldPath newPath l).get? (2 * i) =
        some (RenameCall.renameCall (pjoin oldPath c) (pjoin newPath c)) ∧
      (renameChildCalls oldPath newPath l).get? (2 * i + 1) =
        some (RenameCall.unlinkCall oldPath) := by
  intro l
  induction l with
  | nil =>
    intro i c hi
    rw [List.get?_nil] at hi
    exact Option.noConfusion hi
  | cons f fs ih =>
    intro i c hi
    cases i with
    | zero =>
      have hc : f = c := Option.some.inj hi
      subst hc
      exact ⟨rfl, rfl⟩
    | succ j =>
      have hi' : fs.get? j = some c := hi
      have hstep := ih j c hi'
      constructor
      · rw [show 2 * (j + 1) = 2 * j + 1 + 1 by omega]
        show (renameChildCalls oldPath newPath fs).get? (2 * j) = _
        exact hstep.1
      · rw [show 2 * (j + 1) + 1 = 2 * j + 1 + 1 + 1 by omega]
        show (renameChildCalls oldPath newPath fs).get? (2 * j + 1) = _
        exact hstep.2

/-- C8: for a non-empty children list, the directory branch of `rename`
issues, after `readdir` and `mkdir`, the per-child loop in which every
child's recursive rename (at position `2*i` of the loop trace) is
immediately followed (position `2*i + 1`) by an `unlink` of the source
directory itself — so the source-directory removal is issued once per
child, `n` times for `n` children, not exactly once after all children. -/
theorem c8_rename_loop_structure (oldPath newPath f : String) (fs : List String) :
    renameDirCalls oldPath newPath (f :: fs) =
      RenameCall.readdirCall oldPath :: RenameCall.mkdirCall newPath ("wx") ::
        renameChildCalls oldPath newPath (f :: fs) ∧
    (∀ (i : Nat) (c : String), (f :: fs).get? i = some c →
      (renameChildCalls oldPath newPath (f :: fs)).get? (2 * i) =
        some (RenameCall.renameCall (pjoin oldPath c) (pjoin newPath c)) ∧
      (renameChildCalls oldPath newPath (f :: fs)).get? (2 * i + 1) =
        some (RenameCall.unlinkCall oldPath)) ∧
    countUnlinkSource oldPath (renameDirCalls oldPath newPath (f :: fs)) = fs.length + 1 := by
  refine ⟨?_, fun i c hi => renameChildCalls_get oldPath newPath (f :: fs) i c hi, ?_⟩
  · show RenameCall.readdirCall oldPath :: RenameCall.mkdirCall newPath ("wx") ::
        (if (f :: fs).length = 0 then [RenameCall.unlinkCall oldPath]
         else renameChildCalls oldPath newPath (f :: fs)) = _
    rw [if_neg (show ¬((f :: fs).length = 0) by simp)]
  · show countUnlinkSource oldPath
        (if (f :: fs).length = 0 then [RenameCall.unlinkCall oldPath]
         else renameChildCalls oldPath newPath (f :: fs)) = fs.length + 1
    rw [if_neg (show ¬((f :: fs).length = 0) by simp),
      countUnlinkSource_children oldPath newPath (f :: fs)]
    simp

theorem c8_witness :
    ([("a"), ("b")] : List String).get? 0 = some ("a") ∧
    (renameChildCalls ("/s") ("/t") [("a"), ("b")]).get? 0 =
      some (RenameCall.renameCall (pjoin ("/s") ("a")) (pjoin ("/t") ("a"))) ∧
    (renameChildCalls ("/s") ("/t") [("a"), ("b")]).get? 1 =
      some (RenameCall.unlinkCall ("/s")) ∧
    countUnlinkSource ("/s") (renameDirCalls ("/s") ("/t") [("a"), ("b")]) = 2 :=
  ⟨rfl,
   ((c8_rename_loop_structure ("/s") ("/t") ("a") [("b")]).2.1 0 ("a") rfl).1,
   ((c8_rename_loop_structure ("/s") ("/t") ("a") [("b")]).2.1 0 ("a") rfl).2,
   (c8_rename_loop_structure ("/s") ("/t") ("a") [("b")]).2.2⟩

/-! ## Trace lemmas for the correlation-id discipline (claim C4) -/

theorem stepState_currentID_le (s : WorkerState) (e : BridgeEvent) :
    s.currentID ≤ (stepState s e).currentID := by
  cases e with
  | send t m a => exact Nat.le_succ _
  | recv d => rw [stepState, onmessage_currentID]

theorem sentIds_ge (s : WorkerState) (tr : List BridgeEvent) :
    ∀ x ∈ sentIds s tr, s.currentID ≤ x := by
  induction tr generalizing s with
  | nil => intro x hx; exact absurd hx (List.not_mem_nil x)
  | cons e tr ih =>
    intro x hx
    cases e with
    | send t m a =>
      rw [sentIds] at hx
      rcases List.mem_cons.mp hx with rfl | hx'
      · exact Nat.le_refl _
      · exact Nat.le_of_succ_le (ih (rpcSend s t m a).1 x hx')
    | recv d =>
      rw [sentIds] at hx
      have := ih (onmessage s d).1 x hx
      rw [onmessage_currentID] at this
      exact this

theorem sentIds_pairwise (s : WorkerState) (tr : List BridgeEvent) :
    List.Pairwise (fun a b => a < b) (sentIds s tr) := by
  induction tr generalizing s with
  | nil => exact List.Pairwise.nil
  | cons e tr ih =>
    cases e with
    | send t m a =>
      rw [sentIds]
      refine List.pairwise_cons.mpr ⟨?_, ih _⟩
      intro x hx
      exact Nat.lt_of_succ_le (sentIds_ge (rpcSend s t m a).1 tr x hx)
    | recv d =>
      rw [sentIds]
      exact ih _

theorem winv_init : WInv initState :=
  ⟨List.Pairwise.nil, fun k hk => absurd hk (List.not_mem_nil k)⟩

theorem winv_step (s : WorkerState) (e : BridgeEvent) (h : WInv s) :
    WInv (stepState s e) := by
  obtain ⟨hnd, hlt⟩ := h
  cases e with
  | send t m a =>
    have hfresh : s.currentID ∉ s.requests.map Prod.fst :=
      fun hmem => absurd (hlt _ hmem) (Nat.lt_irrefl _)
    constructor
    · show ((assocSet s.requests s.currentID t).map Prod.fst).Nodup
      rw [keys_assocSet_fresh s.requests s.currentID t hfresh]
      exact List.Nodup.append hnd (List.nodup_singleton _)
        (List.disjoint_singleton.mpr hfresh)
    · intro k hk
      rw [show (stepState s (BridgeEvent.send t m a)).requests =
            assocSet s.requests s.currentID t from rfl,
          keys_assocSet_fresh s.requests s.currentID t hfresh] at hk
      rw [show (stepState s (BridgeEvent.send t m a)).currentID = s.currentID + 1 from rfl]
      rcases List.mem_append.mp hk with hk' | hk'
      · exact Nat.lt_succ_of_lt (hlt _ hk')
      · rw [List.mem_singleton.mp hk']; exact Nat.lt_succ_self _
  | recv d =>
    rcases onmessage_requests s d with hr | ⟨id, t, hr, _⟩
    · constructor
      · show ((onmessage s d).1.requests.map Prod.fst).Nodup
        rw [hr]; exact hnd
      · intro k hk
        rw [stepState, onmessage_currentID]
        rw [show stepState s (BridgeEvent.recv d) = (onmessage s d).1 from rfl, hr] at hk
        exact hlt _ hk
    · have hsub : ((assocErase s.requests id).map Prod.fst).Sublist
          (s.requests.map Prod.fst) := (assocErase_sublist s.requests id).map Prod.fst
      constructor
      · show ((onmessage s d).1.requests.map Prod.fst).Nodup
        rw [hr]; exact List.Nodup.sublist hsub hnd
      · intro k hk
        rw [stepState, onmessage_currentID]
        rw [show stepState s (BridgeEvent.recv d) = (onmessage s d).1 from rfl, hr] at hk
        exact hlt _ (hsub.mem hk)

theorem removalCount_zero (s : WorkerState) (tr : List BridgeEvent) (id : Nat)
    (hid : id < s.currentID) (hg : assocGet s.requests id = none) :
    removalCount s tr id = 0 := by
  induction tr generalizing s with
  | nil => rfl
  | cons e tr ih =>
    have hstep_g : assocGet (stepState s e).requests id = none := by
      cases e with
      | send t m a =>
        show assocGet (assocSet s.requests s.currentID t) id = none
        rw [assocGet_set_ne s.requests s.currentID id t (Nat.ne_of_lt hid), hg]
      | recv d =>
        rcases onmessage_requests s d with hr | ⟨j, t, hr, _⟩
        · show assocGet (onmessage s d).1.requests id = none
          rw [hr]; exact hg
        · show assocGet (onmessage s d).1.requests id = none
          rw [hr]; exact assocGet_none_erase s.requests j id hg
    have hstep_lt : id < (stepState s e).currentID :=
      Nat.lt_of_lt_of_le hid (stepState_currentID_le s e)
    rw [removalCount, ih (stepState s e) hstep_lt hstep_g,
      if_neg (by rw [removesB, hg]; exact fun hh => Bool.noConfusion hh)]

theorem removalCount_le_one (s : WorkerState) (tr : List BridgeEvent) (id : Nat)
    (h : WInv s) : removalCount s tr id ≤ 1 := by
  induction tr generalizing s with
  | nil => exact Nat.zero_le 1
  | cons e tr ih =>
    by_cases hr : removesB s e id = true
    · have hparts := Bool.and_eq_true_iff.mp hr
      have hnone : assocGet (stepState s e).requests id = none :=
        Option.isNone_iff_eq_none.mp hparts.2
      obtain ⟨t, ht⟩ := Option.isSome_iff_exists.mp hparts.1
      have hlt : id < s.currentID := h.2 id (mem_keys_of_assocGet s.requests id t ht)
      have hrest : removalCount (stepState s e) tr id = 0 :=
        removalCount_zero (stepState s e) tr id
          (Nat.lt_of_lt_of_le hlt (stepState_currentID_le s e)) hnone
      rw [removalCount, hrest, if_pos hr]
    · rw [removalCount, if_neg hr]
      simpa using ih (stepState s e) (winv_step s e h)

theorem removesB_shape (s : WorkerState) (e : BridgeEvent) (id : Nat)
    (h : removesB s e id = true) :
    ∃ m v, e = BridgeEvent.recv (EventData.rpc id m v) ∧ ¬ m = ("metadata") := by
  have hparts := Bool.and_eq_true_iff.mp h
  have hnone : assocGet (stepState s e).requests id = none :=
    Option.isNone_iff_eq_none.mp hparts.2
  obtain ⟨t0, ht0⟩ := Option.isSome_iff_exists.mp hparts.1
  cases e with
  | send t m a =>
    exfalso
    by_cases hc : id = s.currentID
    · have : assocGet (stepState s (BridgeEvent.send t m a)).requests id = some t := by
        show assocGet (assocSet s.requests s.currentID t) id = some t
        rw [hc, assocGet_set_self]
      rw [this] at hnone; exact Option.noConfusion hnone
    · have : assocGet (stepState s (BridgeEvent.send t m a)).requests id =
          assocGet s.requests id := by
        show assocGet (assocSet s.requests s.currentID t) id = assocGet s.requests id
        exact assocGet_set_ne s.requests s.currentID id t hc
      rw [this, ht0] at hnone; exact Option.noConfusion hnone
  | recv d =>
    cases d with
    | nullData =>
      exfalso
      rw [show stepState s (BridgeEvent.recv EventData.nullData) = s from rfl, ht0] at hnone
      exact Option.noConfusion hnone
    | notObject =>
      exfalso
      rw [show stepState s (BridgeEvent.recv EventData.notObject) = s from rfl, ht0] at hnone
      exact Option.noConfusion hnone
    | objectNoMarker =>
      exfalso
      rw [show stepState s (BridgeEvent.recv EventData.objectNoMarker) = s from rfl,
        ht0] at hnone
      exact Option.noConfusion hnone
    | rpc id' m v =>
      by_cases hm : m = ("metadata")
      · exfalso
        subst hm
        have : stepState s (BridgeEvent.recv (EventData.rpc id' ("metadata") v)) =
            { s with metadata := some v, isInitialized := true } := by
          rw [stepState, onmessage_meta_eq]
        rw [this] at hnone
        rw [show ({ s with metadata := some v, isInitialized := true } :
          WorkerState).requests = s.requests from rfl, ht0] at hnone
        exact Option.noConfusion hnone
      · cases hp : assocGet s.requests id' with
        | none =>
          exfalso
          have : stepState s (BridgeEvent.recv (EventData.rpc id' m v)) = s := by
            rw [stepState, onmessage_nometa_none s id' m v hm hp]
          rw [this, ht0] at hnone
          exact Option.noConfusion hnone
        | some t' =>
          have hreq : (stepState s (BridgeEvent.recv (EventData.rpc id' m v))).requests =
              assocErase s.requests id' := by
            rw [stepState, onmessage_nometa_some s id' m v t' hm hp]
          by_cases hid : id = id'
          · exact ⟨m, v, by rw [hid], hm⟩
          · exfalso
            rw [hreq, assocGet_erase_ne s.requests id' id hid, ht0] at hnone
            exact Option.noConfusion hnone

/-- C4: along any trace of one bridge instance from construction, the
correlation ids of the sent envelopes are strictly increasing (fresh,
never reused); every id is removed from the pending map at most once; and
any event that removes an id from the pending map is the arrival of a
non-metadata response carrying exactly that id. -/
theorem c4_correlation_ids (tr : List BridgeEvent) :
    List.Pairwise (fun a b => a < b) (sentIds initState tr) ∧
    (∀ id, removalCount initState tr id ≤ 1) ∧
    (∀ (s : WorkerState) (e : BridgeEvent) (id : Nat), removesB s e id = true →
      ∃ m v, e = BridgeEvent.recv (EventData.rpc id m v) ∧ ¬ m = ("metadata")) :=
  ⟨sentIds_pairwise initState tr,
   fun id => removalCount_le_one initState tr id winv_init,
   fun s e id h => removesB_shape s e id h⟩

theorem c4_witness :
    List.Pairwise (fun a b => a < b) (sentIds initState demoTrace) ∧
    removalCount initState demoTrace 0 ≤ 1 ∧
    (∃ m v, BridgeEvent.recv (EventData.rpc 0 ("stat") (RPCValue.data ("s"))) =
      BridgeEvent.recv (EventData.rpc 0 m v) ∧ ¬ m = ("metadata")) :=
  ⟨(c4_correlation_ids demoTrace).1,
   (c4_correlation_ids demoTrace).2.1 0,
   (c4_correlation_ids demoTrace).2.2 demoAfterSend
     (BridgeEvent.recv (EventData.rpc 0 ("stat") (RPCValue.data ("s")))) 0 (by decide)⟩

theorem c10_witness :
    (¬ ("stat") = ("metadata")) ∧
    assocGet wsEmpty.requests 3 = none ∧
    onmessage wsEmpty (EventData.rpc 3 ("stat") (RPCValue.data ("y"))) =
      (wsEmpty, HandlerOutcome.threwTypeError) :=
  ⟨by decide, rfl,
   c10_unmatched_id_throws wsEmpty 3 ("stat") (RPCValue.data ("y")) (by decide) rfl⟩

end BrowserFSDom
